import Mathlib

/- Verification development for the parabolic PDE stepper
(tf_quant_finance/experimental/pde_v2/fd_backward_schemes/parabolic_equation_stepper.py).

Modelling conventions:
* real scalars are rationals;
* a tensor slice along the last (spatial) axis is a Lean list; a batched
  2-D value grid is a list of rows;
* scalar PDE/boundary data that the array library would broadcast over the
  grid is modelled as the constant field it broadcasts to, so a coefficient
  function returns the full-grid field directly;
* Python exceptions are modelled with Except: the explicit ValueError raised
  by the boundary discretizer, the TypeError arising from using None as an
  operand or callee, and out-of-range tensor indexing are distinguished;
* elementwise tensor arithmetic is zipWith/map; slices that Python clamps
  (such as x[1:], x[:-1], x[1:-1]) are drop/dropLast and never raise;
  indexing a single element (x[i], x[-1]) is checked and can raise. -/

/-- The distinct failure modes of the stepper: the explicitly raised
ValueError for invalid boundary conditions, a TypeError from using a Python
None where a number or callable is required, and an out-of-range index into
a tensor axis. -/
inductive StepErr where
  | invalidBoundaryError : StepErr
  | noneTypeError : StepErr
  | outOfRangeError : StepErr
  deriving DecidableEq

/-- The second argument handed to a boundary-condition callable: either the
coordinate grid itself or a single scalar coordinate (the source passes
the scalar coord_grid[0][0] at one call site). -/
inductive GridArg where
  | fullGrid : List ℚ → GridArg
  | scalar : ℚ → GridArg
  deriving DecidableEq

/-- A boundary-condition callable: (time, grid argument) to (alpha, beta, gamma),
with alpha and beta possibly None. -/
abbrev BoundaryFn := ℚ → GridArg → Option ℚ × Option ℚ × ℚ

/-- A PDE-coefficient callable: (time, grid) to the coefficient field over
the full grid. -/
abbrev CoeffFn := ℚ → List ℚ → List ℚ

/-- The space-discretized equation data: the tridiagonal matrix as the triple
(diagonal, upper, lower) plus the inhomogeneous term. -/
abbrev EqnParams := (List ℚ × List ℚ × List ℚ) × List ℚ

/-- The externally supplied time-marching routine: takes the interior value
grid, the two times (t1 lesser, t2 greater) and the equation-params generator,
and returns an updated interior grid (or propagates an exception raised by
the generator). -/
abbrev MarchingScheme :=
  List (List ℚ) → ℚ → ℚ → (ℚ → Except StepErr EqnParams) → Except StepErr (List (List ℚ))

/-- Checked tensor indexing along the last axis, with Python semantics for
negative indices. -/
def tfIndex (l : List ℚ) (i : Int) : Except StepErr ℚ :=
  let j : Int := if i < 0 then i + l.length else i
  if 0 ≤ j ∧ j.toNat < l.length then .ok (l.getD j.toNat 0) else .error .outOfRangeError

/-- The slice x[..., 1:-1]. -/
def innerSlice (l : List ℚ) : List ℚ := (l.drop 1).dropLast

/-- tf.zeros_like on a 1-D slice. -/
def zeros_like (l : List ℚ) : List ℚ := List.replicate l.length 0

/-- Source helper _append_first_and_last: concatenation along the last axis. -/
def append_first_and_last (first : ℚ) (inner : List ℚ) (last : ℚ) : List ℚ :=
  first :: inner ++ [last]

/-- Source helper _append_first. -/
def append_first (first : ℚ) (rest : List ℚ) : List ℚ := first :: rest

/-- Source helper _append_last. -/
def append_last (rest : List ℚ) (last : ℚ) : List ℚ := rest ++ [last]

/-- Elementwise sum of two equally shaped slices. -/
def eltAdd (xs ys : List ℚ) : List ℚ := List.zipWith (fun x y => x + y) xs ys

/-- Elementwise difference. -/
def eltSub (xs ys : List ℚ) : List ℚ := List.zipWith (fun x y => x - y) xs ys

/-- Elementwise quotient. -/
def eltDiv (xs ys : List ℚ) : List ℚ := List.zipWith (fun x y => x / y) xs ys

/-- Multiplication of a slice by a scalar. -/
def eltScale (c : ℚ) (xs : List ℚ) : List ℚ := List.map (fun x => c * x) xs

/-- Elementwise negation. -/
def eltNeg (xs : List ℚ) : List ℚ := List.map (fun x => -x) xs

/-- Division where the divisor may be Python None: None as an operand raises
a TypeError. -/
def divOpt (x : ℚ) (y : Option ℚ) : Except StepErr ℚ :=
  match y with
  | none => .error .noneTypeError
  | some v => .ok (x / v)

/-- Invoking a possibly-absent coefficient callable: calling None raises a
TypeError. -/
def callCoeffFn (fn : Option CoeffFn) (t : ℚ) (grid : List ℚ) : Except StepErr (List ℚ) :=
  match fn with
  | none => .error .noneTypeError
  | some f => .ok (f t grid)

/-- Source _prepare_pde_coeffs: the coefficient values, already broadcast over
the full grid, are trimmed to the interior points (the slice [..., 1:-1]). -/
def prepare_pde_coeffs (raw_coeffs : List ℚ) : List ℚ := (raw_coeffs.drop 1).dropLast

/-- The tridiagonal stencil construction from _construct_space_discretized_eqn_params
(source lines 204-233): forward, backward and summed grid spacings, the V_xx and
V_x weights, and the three diagonals, all as elementwise slice arithmetic on
interior points. The coefficient arguments are the already-trimmed interior
fields. -/
def stencil_diagonals (coord_grid_deltas second_order_coeff first_order_coeff
    zeroth_order_coeff : List ℚ) : List ℚ × List ℚ × List ℚ :=
  let forward_deltas := coord_grid_deltas.drop 1
  let backward_deltas := coord_grid_deltas.dropLast
  let sum_deltas := eltAdd forward_deltas backward_deltas
  let temp := eltDiv (eltScale 2 second_order_coeff) sum_deltas
  let dxdx_coef_1 := eltDiv temp forward_deltas
  let dxdx_coef_2 := eltDiv temp backward_deltas
  let dx_coef := eltDiv first_order_coeff sum_deltas
  let upper_diagonal := eltSub (eltNeg dx_coef) dxdx_coef_1
  let lower_diagonal := eltSub dx_coef dxdx_coef_2
  let diagonal := eltSub (eltSub (eltNeg zeroth_order_coeff) upper_diagonal) lower_diagonal
  (diagonal, upper_diagonal, lower_diagonal)

/-- Source _discretize_boundary_conditions: converts alpha V + beta V_n = gamma
into v0 = xi1 v1 + xi2 v2 + eta.  Raises the explicit ValueError when alpha and
beta are both None. -/
def discretize_boundary_conditions (dx0 dx1 : ℚ) (alpha beta : Option ℚ) (gamma : ℚ) :
    Except StepErr (ℚ × ℚ × ℚ) :=
  match beta with
  | none =>
    match alpha with
    | none => .error .invalidBoundaryError
    | some a => .ok (0, 0, gamma / a)
  | some b =>
    let denom0 := b * dx1 * (2 * dx0 + dx1)
    let denom :=
      match alpha with
      | none => denom0
      | some a => denom0 + a * dx0 * dx1 * (dx0 + dx1)
    .ok (b * (dx0 + dx1) * (dx0 + dx1) / denom,
         -b * dx0 * dx0 / denom,
         gamma * dx0 * dx1 * (dx0 + dx1) / denom)

/-- Source _apply_boundary_conditions_to_discretized_equation: evaluates the two
boundary-condition callables at (t, coord_grid), takes the Dirichlet shortcut
when both betas are None, and otherwise folds the per-edge extrapolation rules
into the first and last rows of the tridiagonal operator. -/
def apply_boundary_conditions_to_discretized_equation
    (boundary_lower boundary_upper : BoundaryFn) (coord_grid coord_grid_deltas : List ℚ)
    (diagonal upper_diagonal lower_diagonal : List ℚ) (t : ℚ) :
    Except StepErr EqnParams := do
  let (alpha_l, beta_l, gamma_l) := boundary_lower t (GridArg.fullGrid coord_grid)
  let (alpha_u, beta_u, gamma_u) := boundary_upper t (GridArg.fullGrid coord_grid)
  if beta_l = none ∧ beta_u = none then
    let l0 ← tfIndex lower_diagonal 0
    let um ← tfIndex upper_diagonal (-1)
    let first_inhomog_element ← divOpt (l0 * gamma_l) alpha_l
    let last_inhomog_element ← divOpt (um * gamma_u) alpha_u
    let inhomog_term := append_first_and_last first_inhomog_element
      (zeros_like (innerSlice diagonal)) last_inhomog_element
    return ((diagonal, upper_diagonal, lower_diagonal), inhomog_term)
  else
    let d0 ← tfIndex coord_grid_deltas 0
    let d1 ← tfIndex coord_grid_deltas 1
    let (xi1, xi2, eta) ← discretize_boundary_conditions d0 d1 alpha_l beta_l gamma_l
    let l0 ← tfIndex lower_diagonal 0
    let diag_first_correction := l0 * xi1
    let upper_diag_correction := l0 * xi2
    let first_inhomog_element := l0 * eta
    let dm1 ← tfIndex coord_grid_deltas (-1)
    let dm2 ← tfIndex coord_grid_deltas (-2)
    let (xi1u, xi2u, etau) ← discretize_boundary_conditions dm1 dm2 alpha_u beta_u gamma_u
    let um ← tfIndex upper_diagonal (-1)
    let diag_last_correction := um * xi1u
    let lower_diag_correction := um * xi2u
    let last_inhomog_element := um * etau
    let diag_first ← tfIndex diagonal 0
    let diag_last ← tfIndex diagonal (-1)
    let diagonal2 := append_first_and_last (diag_first + diag_first_correction)
      (innerSlice diagonal) (diag_last + diag_last_correction)
    let upper_first ← tfIndex upper_diagonal 0
    let upper_diagonal2 := append_first (upper_first + upper_diag_correction)
      (upper_diagonal.drop 1)
    let lower_last ← tfIndex lower_diagonal (-1)
    let lower_diagonal2 := append_last lower_diagonal.dropLast
      (lower_last + lower_diag_correction)
    let inhomog_term := append_first_and_last first_inhomog_element
      (zeros_like (innerSlice diagonal2)) last_inhomog_element
    return ((diagonal2, upper_diagonal2, lower_diagonal2), inhomog_term)

/-- Source _construct_space_discretized_eqn_params: evaluates the three PDE
coefficient callables, trims them to the interior, builds the stencil diagonals
and applies the boundary conditions.  The second-order callable is invoked as
received (it may be None, in which case calling it raises a TypeError); the
first- and zeroth-order callables were already defaulted by the step driver. -/
def construct_space_discretized_eqn_params
    (coord_grid coord_grid_deltas : List ℚ)
    (boundary_lower boundary_upper : BoundaryFn)
    (second_order_coeff_fn : Option CoeffFn)
    (first_order_coeff_fn zeroth_order_coeff_fn : CoeffFn)
    (t : ℚ) : Except StepErr EqnParams := do
  let second_order_raw ← callCoeffFn second_order_coeff_fn t coord_grid
  let second_order_coeff := prepare_pde_coeffs second_order_raw
  let first_order_coeff := prepare_pde_coeffs (first_order_coeff_fn t coord_grid)
  let zeroth_order_coeff := prepare_pde_coeffs (zeroth_order_coeff_fn t coord_grid)
  let (diagonal, upper_diagonal, lower_diagonal) :=
    stencil_diagonals coord_grid_deltas second_order_coeff first_order_coeff zeroth_order_coeff
  apply_boundary_conditions_to_discretized_equation boundary_lower boundary_upper
    coord_grid coord_grid_deltas diagonal upper_diagonal lower_diagonal t

/-- The batched value xi1 * inner[..., 0] + xi2 * inner[..., 1] + eta, one
entry per batch row. -/
def boundary_values_first (xi1 xi2 eta : ℚ) : List (List ℚ) → Except StepErr (List ℚ)
  | [] => .ok []
  | row :: rest => do
    let v1 ← tfIndex row 0
    let v2 ← tfIndex row 1
    let others ← boundary_values_first xi1 xi2 eta rest
    return (xi1 * v1 + xi2 * v2 + eta) :: others

/-- The batched value xi1 * inner[..., -1] + xi2 * inner[..., -2] + eta. -/
def boundary_values_last (xi1 xi2 eta : ℚ) : List (List ℚ) → Except StepErr (List ℚ)
  | [] => .ok []
  | row :: rest => do
    let v1 ← tfIndex row (-1)
    let v2 ← tfIndex row (-2)
    let others ← boundary_values_last xi1 xi2 eta rest
    return (xi1 * v1 + xi2 * v2 + eta) :: others

/-- Batched _append_first_and_last: prepend/append one boundary value per row. -/
def append_rows : List ℚ → List (List ℚ) → List ℚ → List (List ℚ)
  | f :: fs, row :: rows, l :: ls => append_first_and_last f row l :: append_rows fs rows ls
  | _, _, _ => []

/-- Source _apply_boundary_conditions_after_step: restore the two boundary
columns from the updated interior values.  Note the second argument passed to
the lower boundary callable is the scalar coord_grid[0][0], while the upper
callable receives the coordinate grid itself, exactly as in the source. -/
def apply_boundary_conditions_after_step
    (inner_grid_out : List (List ℚ)) (boundary_lower boundary_upper : BoundaryFn)
    (coord_grid coord_grid_deltas : List ℚ) (time_after_step : ℚ) :
    Except StepErr (List (List ℚ)) := do
  let g00 ← tfIndex coord_grid 0
  let (alpha, beta, gamma) := boundary_lower time_after_step (GridArg.scalar g00)
  let d0 ← tfIndex coord_grid_deltas 0
  let d1 ← tfIndex coord_grid_deltas 1
  let (xi1, xi2, eta) ← discretize_boundary_conditions d0 d1 alpha beta gamma
  let first_values ← boundary_values_first xi1 xi2 eta inner_grid_out
  let (alpha2, beta2, gamma2) := boundary_upper time_after_step (GridArg.fullGrid coord_grid)
  let dm1 ← tfIndex coord_grid_deltas (-1)
  let dm2 ← tfIndex coord_grid_deltas (-2)
  let (xi1u, xi2u, etau) ← discretize_boundary_conditions dm1 dm2 alpha2 beta2 gamma2
  let last_values ← boundary_values_last xi1u xi2u etau inner_grid_out
  return append_rows first_values inner_grid_out last_values

/-- The default supplied for an absent first- or zeroth-order coefficient
callable: the zero coefficient (a scalar 0.0 broadcast over the grid). -/
def zero_coeff_fn : CoeffFn := fun _ grid => List.replicate grid.length 0

/-- coord_grid[0][1:] - coord_grid[0][:-1]. -/
def grid_deltas (coord_grid : List ℚ) : List ℚ :=
  List.zipWith (fun x y => x - y) (coord_grid.drop 1) coord_grid.dropLast

/-- The time-parametrized equation-params generator the step driver hands to
the time-marching routine. -/
def step_equation_params_fn (coord_grid : List ℚ)
    (boundary_lower boundary_upper : BoundaryFn)
    (second_order_coeff_fn : Option CoeffFn)
    (first_order_coeff_fn zeroth_order_coeff_fn : CoeffFn) : ℚ → Except StepErr EqnParams :=
  fun t => construct_space_discretized_eqn_params coord_grid (grid_deltas coord_grid)
    boundary_lower boundary_upper second_order_coeff_fn first_order_coeff_fn
    zeroth_order_coeff_fn t

/-- Source parabolic_equation_step: defaults the first- and zeroth-order
coefficient callables (but not the second-order one), strips the boundary
columns, delegates to the time-marching routine, and restores boundary values
at next_time. -/
def parabolic_equation_step (time next_time : ℚ) (coord_grid : List ℚ)
    (value_grid : List (List ℚ)) (boundary_lower boundary_upper : BoundaryFn)
    (second_order_coeff_fn first_order_coeff_fn zeroth_order_coeff_fn : Option CoeffFn)
    (time_marching_scheme : MarchingScheme) :
    Except StepErr (List ℚ × List (List ℚ)) := do
  let first_fn := first_order_coeff_fn.getD zero_coeff_fn
  let zeroth_fn := zeroth_order_coeff_fn.getD zero_coeff_fn
  let inner_grid_in := value_grid.map innerSlice
  let coord_grid_deltas := grid_deltas coord_grid
  let inner_grid_out ← time_marching_scheme inner_grid_in next_time time
    (step_equation_params_fn coord_grid boundary_lower boundary_upper second_order_coeff_fn
      first_fn zeroth_fn)
  let updated ← apply_boundary_conditions_after_step inner_grid_out boundary_lower
    boundary_upper coord_grid coord_grid_deltas next_time
  return (coord_grid, updated)


/-- A boundary-condition callable is valid when it never returns alpha and beta
both None (Dirichlet needs alpha, Neumann needs beta). -/
def validBoundaryFn (f : BoundaryFn) : Prop :=
  ∀ t arg, (f t arg).2.1 = none → (f t arg).1 ≠ none

/- Reduction helpers for the Except monad, for checked indexing, and for
pointwise reading of slice arithmetic. -/

/-- Bind of a success value. -/
@[simp]
theorem ok_bind {α β : Type} (a : α) (f : α → Except StepErr β) :
    (Except.ok a : Except StepErr α) >>= f = f a := rfl

/-- Bind of an error short-circuits. -/
@[simp]
theorem error_bind {α β : Type} (e : StepErr) (f : α → Except StepErr β) :
    (Except.error e : Except StepErr α) >>= f = .error e := rfl

/-- Pure is ok. -/
@[simp]
theorem pure_eq_ok {α : Type} (a : α) : (pure a : Except StepErr α) = .ok a := rfl

/-- Indexing at 0 succeeds on a nonempty slice. -/
theorem tfIndex_zero (l : List ℚ) (h : l ≠ []) : tfIndex l 0 = .ok (l.getD 0 0) := by
  have h0 : 0 < l.length := List.length_pos.mpr h
  simp only [tfIndex]
  norm_num
  intro h2
  exact absurd h2 h

/-- Indexing at 1 succeeds when the slice has at least two entries. -/
theorem tfIndex_one (l : List ℚ) (h : 2 ≤ l.length) : tfIndex l 1 = .ok (l.getD 1 0) := by
  simp only [tfIndex]
  norm_num
  intro h2
  omega

/-- Indexing at -1 yields the last entry of a nonempty slice. -/
theorem tfIndex_neg_one (l : List ℚ) (h : l ≠ []) :
    tfIndex l (-1) = .ok (l.getD (l.length - 1) 0) := by
  have h0 : 0 < l.length := List.length_pos.mpr h
  simp only [tfIndex]
  norm_num
  rw [if_pos (by constructor <;> omega)]
  have he : ((-1 : Int) + l.length).toNat = l.length - 1 := by omega
  rw [he]

/-- Indexing at -2 yields the second-to-last entry when there are at least two. -/
theorem tfIndex_neg_two (l : List ℚ) (h : 2 ≤ l.length) :
    tfIndex l (-2) = .ok (l.getD (l.length - 2) 0) := by
  simp only [tfIndex]
  norm_num
  rw [if_pos (by constructor <;> omega)]
  have he : ((-2 : Int) + l.length).toNat = l.length - 2 := by omega
  rw [he]

/-- In-bounds indexing read through getD. -/
theorem getElem?_eq_some_getD (l : List ℚ) (i : ℕ) (h : i < l.length) :
    l[i]? = some (l.getD i 0) := by
  simp [List.getD_eq_getElem?_getD, List.getElem?_eq_getElem h]

/-- Reading the forward-shifted slice x[1:]. -/
theorem getElem?_drop_one (l : List ℚ) (i : ℕ) (h : i + 1 < l.length) :
    (l.drop 1)[i]? = some (l.getD (i + 1) 0) := by
  rw [List.getElem?_drop]
  rw [show 1 + i = i + 1 from Nat.add_comm 1 i]
  exact getElem?_eq_some_getD l (i + 1) h

/-- Reading the backward slice x[:-1]. -/
theorem getElem?_dropLast_getD (l : List ℚ) (i : ℕ) (h : i + 1 < l.length) :
    l.dropLast[i]? = some (l.getD i 0) := by
  rw [List.getElem?_dropLast, if_pos (by omega)]
  exact getElem?_eq_some_getD l i (by omega)

/-- Reading the interior slice x[1:-1]. -/
theorem getElem?_inner (l : List ℚ) (i : ℕ) (h : i + 2 < l.length) :
    (l.drop 1).dropLast[i]? = some (l.getD (i + 1) 0) := by
  rw [List.getElem?_dropLast, if_pos (by simp [List.length_drop]; omega)]
  exact getElem?_drop_one l i (by omega)

/-- Trimming shifts interior reads by one. -/
theorem prepare_pde_coeffs_getD (l : List ℚ) (i : ℕ) (h : i + 2 < l.length) :
    (prepare_pde_coeffs l).getD i 0 = l.getD (i + 1) 0 := by
  rw [prepare_pde_coeffs, List.getD_eq_getElem?_getD, getElem?_inner l i h, Option.getD_some]

/-- Length of a trimmed coefficient field. -/
theorem prepare_pde_coeffs_length (l : List ℚ) :
    (prepare_pde_coeffs l).length = l.length - 2 := by
  simp [prepare_pde_coeffs]
  omega

/-- Length of the interior slice. -/
theorem innerSlice_length (l : List ℚ) : (innerSlice l).length = l.length - 2 := by
  simp [innerSlice]
  omega

/-- Interior slice of a first-and-last extension recovers the middle. -/
theorem innerSlice_append_first_and_last (f l : ℚ) (m : List ℚ) :
    innerSlice (append_first_and_last f m l) = m := by
  simp [innerSlice, append_first_and_last]

/-- Reading a constant slice. -/
theorem getD_replicate (x : ℚ) (n i : ℕ) (h : i < n) :
    (List.replicate n x).getD i 0 = x := by
  simp [List.getD_eq_getElem?_getD, List.getElem?_replicate_of_lt h]

/-- Pointwise value of the upper diagonal produced by the stencil builder. -/
theorem stencil_upper_getD (deltas second first zeroth : List ℚ) (i : ℕ)
    (hi : i + 1 < deltas.length) (ha : i < second.length) (hb : i < first.length) :
    (stencil_diagonals deltas second first zeroth).2.1.getD i 0
      = -(first.getD i 0 / (deltas.getD i 0 + deltas.getD (i + 1) 0)
          + 2 * second.getD i 0 / (deltas.getD i 0 + deltas.getD (i + 1) 0)
            / deltas.getD (i + 1) 0) := by
  have hfw : (deltas.drop 1)[i]? = some (deltas.getD (i + 1) 0) := getElem?_drop_one deltas i hi
  have hbw : deltas.dropLast[i]? = some (deltas.getD i 0) := getElem?_dropLast_getD deltas i hi
  have hsa : second[i]? = some (second.getD i 0) := getElem?_eq_some_getD _ _ ha
  have hsb : first[i]? = some (first.getD i 0) := getElem?_eq_some_getD _ _ hb
  simp only [stencil_diagonals]
  rw [List.getD_eq_getElem?_getD]
  simp only [eltAdd, eltSub, eltDiv, eltNeg, eltScale, List.getElem?_zipWith,
    List.getElem?_map, hfw, hbw, hsa, hsb, Option.map_some', Option.getD_some]
  ring

/-- Pointwise value of the lower diagonal produced by the stencil builder. -/
theorem stencil_lower_getD (deltas second first zeroth : List ℚ) (i : ℕ)
    (hi : i + 1 < deltas.length) (ha : i < second.length) (hb : i < first.length) :
    (stencil_diagonals deltas second first zeroth).2.2.getD i 0
      = first.getD i 0 / (deltas.getD i 0 + deltas.getD (i + 1) 0)
        - 2 * second.getD i 0 / (deltas.getD i 0 + deltas.getD (i + 1) 0)
          / deltas.getD i 0 := by
  have hfw : (deltas.drop 1)[i]? = some (deltas.getD (i + 1) 0) := getElem?_drop_one deltas i hi
  have hbw : deltas.dropLast[i]? = some (deltas.getD i 0) := getElem?_dropLast_getD deltas i hi
  have hsa : second[i]? = some (second.getD i 0) := getElem?_eq_some_getD _ _ ha
  have hsb : first[i]? = some (first.getD i 0) := getElem?_eq_some_getD _ _ hb
  simp only [stencil_diagonals]
  rw [List.getD_eq_getElem?_getD]
  simp only [eltAdd, eltSub, eltDiv, eltNeg, eltScale, List.getElem?_zipWith,
    List.getElem?_map, hfw, hbw, hsa, hsb, Option.map_some', Option.getD_some]
  ring

/-- Pointwise value of the main diagonal produced by the stencil builder. -/
theorem stencil_diag_getD (deltas second first zeroth : List ℚ) (i : ℕ)
    (hi : i + 1 < deltas.length) (ha : i < second.length) (hb : i < first.length)
    (hc : i < zeroth.length) :
    (stencil_diagonals deltas second first zeroth).1.getD i 0
      = -zeroth.getD i 0
        - (stencil_diagonals deltas second first zeroth).2.1.getD i 0
        - (stencil_diagonals deltas second first zeroth).2.2.getD i 0 := by
  have hfw : (deltas.drop 1)[i]? = some (deltas.getD (i + 1) 0) := getElem?_drop_one deltas i hi
  have hbw : deltas.dropLast[i]? = some (deltas.getD i 0) := getElem?_dropLast_getD deltas i hi
  have hsa : second[i]? = some (second.getD i 0) := getElem?_eq_some_getD _ _ ha
  have hsb : first[i]? = some (first.getD i 0) := getElem?_eq_some_getD _ _ hb
  have hsc : zeroth[i]? = some (zeroth.getD i 0) := getElem?_eq_some_getD _ _ hc
  rw [stencil_upper_getD deltas second first zeroth i hi ha hb,
    stencil_lower_getD deltas second first zeroth i hi ha hb]
  simp only [stencil_diagonals]
  rw [List.getD_eq_getElem?_getD]
  simp only [eltAdd, eltSub, eltDiv, eltNeg, eltScale, List.getElem?_zipWith,
    List.getElem?_map, hfw, hbw, hsa, hsb, hsc, Option.map_some', Option.getD_some]
  ring

theorem apply_bc_fast_path (bcL bcU : BoundaryFn) (grid deltas diag up low : List ℚ)
    (t aL aU gL gU : ℚ)
    (hbl : bcL t (GridArg.fullGrid grid) = (some aL, none, gL))
    (hbu : bcU t (GridArg.fullGrid grid) = (some aU, none, gU))
    (hlow : low ≠ []) (hup : up ≠ []) :
    apply_boundary_conditions_to_discretized_equation bcL bcU grid deltas diag up low t
      = .ok ((diag, up, low),
          append_first_and_last (low.getD 0 0 * gL / aL)
            (List.replicate (diag.length - 2) 0)
            (up.getD (up.length - 1) 0 * gU / aU)) := by
  simp only [apply_boundary_conditions_to_discretized_equation, hbl, hbu,
    tfIndex_zero low hlow, tfIndex_neg_one up hup, divOpt, ok_bind, zeros_like,
    innerSlice_length]
  simp

theorem discretize_robin_without_alpha (dx0 dx1 b gamma : ℚ) :
    discretize_boundary_conditions dx0 dx1 none (some b) gamma
      = .ok (b * (dx0 + dx1) ^ 2 / (b * dx1 * (2 * dx0 + dx1)),
             -(b * dx0 ^ 2) / (b * dx1 * (2 * dx0 + dx1)),
             gamma * dx0 * dx1 * (dx0 + dx1) / (b * dx1 * (2 * dx0 + dx1))) := by
  simp only [discretize_boundary_conditions, Except.ok.injEq, Prod.mk.injEq]
  refine ⟨by ring_nf, by ring_nf, by ring_nf⟩

theorem discretize_robin_with_alpha (dx0 dx1 a b gamma : ℚ) :
    discretize_boundary_conditions dx0 dx1 (some a) (some b) gamma
      = .ok (b * (dx0 + dx1) ^ 2 / (b * dx1 * (2 * dx0 + dx1) + a * dx0 * dx1 * (dx0 + dx1)),
             -(b * dx0 ^ 2) / (b * dx1 * (2 * dx0 + dx1) + a * dx0 * dx1 * (dx0 + dx1)),
             gamma * dx0 * dx1 * (dx0 + dx1)
               / (b * dx1 * (2 * dx0 + dx1) + a * dx0 * dx1 * (dx0 + dx1))) := by
  simp only [discretize_boundary_conditions, Except.ok.injEq, Prod.mk.injEq]
  refine ⟨by ring_nf, by ring_nf, by ring_nf⟩

theorem apply_robin_edges (bcL bcU : BoundaryFn) (grid deltas diag up low : List ℚ) (t : ℚ)
    (aL aU : Option ℚ) (bL bU gL gU : ℚ)
    (hbl : bcL t (GridArg.fullGrid grid) = (aL, some bL, gL))
    (hbu : bcU t (GridArg.fullGrid grid) = (aU, some bU, gU))
    (hd : 2 ≤ deltas.length) (hdiag : diag ≠ []) (hup : up ≠ []) (hlow : low ≠ []) :
    ∃ xi1 xi2 eta xi1u xi2u etau : ℚ,
      discretize_boundary_conditions (deltas.getD 0 0) (deltas.getD 1 0) aL (some bL) gL
        = .ok (xi1, xi2, eta)
      ∧ discretize_boundary_conditions (deltas.getD (deltas.length - 1) 0)
          (deltas.getD (deltas.length - 2) 0) aU (some bU) gU = .ok (xi1u, xi2u, etau)
      ∧ apply_boundary_conditions_to_discretized_equation bcL bcU grid deltas diag up low t
        = .ok ((append_first_and_last (diag.getD 0 0 + low.getD 0 0 * xi1) (innerSlice diag)
                  (diag.getD (diag.length - 1) 0 + up.getD (up.length - 1) 0 * xi1u),
                append_first (up.getD 0 0 + low.getD 0 0 * xi2) (up.drop 1),
                append_last low.dropLast
                  (low.getD (low.length - 1) 0 + up.getD (up.length - 1) 0 * xi2u)),
               append_first_and_last (low.getD 0 0 * eta)
                 (List.replicate (diag.length - 2) 0)
                 (up.getD (up.length - 1) 0 * etau)) := by
  have hdne : deltas ≠ [] := by intro h; simp [h] at hd
  refine ⟨_, _, _, _, _, _, rfl, rfl, ?_⟩
  simp only [apply_boundary_conditions_to_discretized_equation, hbl, hbu,
    tfIndex_zero deltas hdne, tfIndex_one deltas hd, tfIndex_neg_one deltas hdne,
    tfIndex_neg_two deltas hd, tfIndex_zero low hlow, tfIndex_zero diag hdiag,
    tfIndex_zero up (by intro h; simp [h] at hup : up ≠ []),
    tfIndex_neg_one up hup, tfIndex_neg_one diag hdiag, tfIndex_neg_one low hlow,
    discretize_boundary_conditions, ok_bind, zeros_like,
    innerSlice_append_first_and_last, innerSlice_length]
  simp

theorem discretize_both_none_raises (dx0 dx1 gamma : ℚ) :
    discretize_boundary_conditions dx0 dx1 none none gamma
      = .error .invalidBoundaryError := rfl

theorem apply_lower_both_none (bcL bcU : BoundaryFn) (grid deltas diag up low : List ℚ) (t : ℚ)
    (gL gU : ℚ) (aU : Option ℚ) (bU : ℚ)
    (hbl : bcL t (GridArg.fullGrid grid) = (none, none, gL))
    (hbu : bcU t (GridArg.fullGrid grid) = (aU, some bU, gU))
    (hd : 2 ≤ deltas.length) :
    apply_boundary_conditions_to_discretized_equation bcL bcU grid deltas diag up low t
      = .error .invalidBoundaryError := by
  have hdne : deltas ≠ [] := by intro h; simp [h] at hd
  simp only [apply_boundary_conditions_to_discretized_equation, hbl, hbu,
    tfIndex_zero deltas hdne, tfIndex_one deltas hd,
    discretize_boundary_conditions, ok_bind, error_bind]
  simp

theorem apply_upper_both_none (bcL bcU : BoundaryFn) (grid deltas diag up low : List ℚ) (t : ℚ)
    (gL gU : ℚ) (aL : Option ℚ) (bL : ℚ)
    (hbl : bcL t (GridArg.fullGrid grid) = (aL, some bL, gL))
    (hbu : bcU t (GridArg.fullGrid grid) = (none, none, gU))
    (hd : 2 ≤ deltas.length) (hlow : low ≠ []) :
    apply_boundary_conditions_to_discretized_equation bcL bcU grid deltas diag up low t
      = .error .invalidBoundaryError := by
  have hdne : deltas ≠ [] := by intro h; simp [h] at hd
  simp only [apply_boundary_conditions_to_discretized_equation, hbl, hbu,
    tfIndex_zero deltas hdne, tfIndex_one deltas hd, tfIndex_neg_one deltas hdne,
    tfIndex_neg_two deltas hd, tfIndex_zero low hlow,
    discretize_boundary_conditions, ok_bind, error_bind]
  simp

theorem boundary_values_first_zero (e : ℚ) (rows : List (List ℚ))
    (h : ∀ r ∈ rows, 2 ≤ r.length) :
    boundary_values_first 0 0 e rows = .ok (rows.map fun _ => e) := by
  induction rows with
  | nil => rfl
  | cons r rest ih =>
    have hr : 2 ≤ r.length := h r (by simp)
    have hrne : r ≠ [] := by intro hx; simp [hx] at hr
    simp only [boundary_values_first, tfIndex_zero r hrne, tfIndex_one r hr, ok_bind,
      ih (fun x hx => h x (by simp [hx])), List.map_cons, pure_eq_ok]
    norm_num

theorem boundary_values_last_zero (e : ℚ) (rows : List (List ℚ))
    (h : ∀ r ∈ rows, 2 ≤ r.length) :
    boundary_values_last 0 0 e rows = .ok (rows.map fun _ => e) := by
  induction rows with
  | nil => rfl
  | cons r rest ih =>
    have hr : 2 ≤ r.length := h r (by simp)
    have hrne : r ≠ [] := by intro hx; simp [hx] at hr
    simp only [boundary_values_last, tfIndex_neg_one r hrne, tfIndex_neg_two r hr, ok_bind,
      ih (fun x hx => h x (by simp [hx])), List.map_cons, pure_eq_ok]
    norm_num

theorem append_rows_const (e1 e2 : ℚ) (rows : List (List ℚ)) :
    append_rows (rows.map fun _ => e1) rows (rows.map fun _ => e2)
      = rows.map fun r => append_first_and_last e1 r e2 := by
  induction rows with
  | nil => rfl
  | cons r rest ih => simp only [List.map_cons, append_rows, ih]

theorem grid_deltas_length (g : List ℚ) : (grid_deltas g).length = g.length - 1 := by
  simp [grid_deltas]

theorem after_step_dirichlet (bcL bcU : BoundaryFn) (innerRows : List (List ℚ))
    (grid deltas : List ℚ) (t aL aU gL gU : ℚ)
    (hbl : ∀ arg, bcL t arg = (some aL, none, gL))
    (hbu : ∀ arg, bcU t arg = (some aU, none, gU))
    (hg : grid ≠ []) (hd : 2 ≤ deltas.length) (hrow : ∀ r ∈ innerRows, 2 ≤ r.length) :
    apply_boundary_conditions_after_step innerRows bcL bcU grid deltas t
      = .ok (innerRows.map fun r => append_first_and_last (gL / aL) r (gU / aU)) := by
  have hdne : deltas ≠ [] := by intro h; simp [h] at hd
  simp only [apply_boundary_conditions_after_step, tfIndex_zero grid hg,
    tfIndex_zero deltas hdne, tfIndex_one deltas hd, tfIndex_neg_one deltas hdne,
    tfIndex_neg_two deltas hd, hbl, hbu, discretize_boundary_conditions, ok_bind,
    boundary_values_first_zero (gL / aL) innerRows hrow,
    boundary_values_last_zero (gU / aU) innerRows hrow,
    append_rows_const, pure_eq_ok]

theorem discretize_ok (dx0 dx1 : ℚ) (alpha beta : Option ℚ) (gamma : ℚ)
    (h : beta = none → alpha ≠ none) :
    ∃ p, discretize_boundary_conditions dx0 dx1 alpha beta gamma = .ok p := by
  cases beta with
  | some b => exact ⟨_, rfl⟩
  | none =>
    cases alpha with
    | none => exact absurd rfl (h rfl)
    | some a => exact ⟨_, rfl⟩

theorem boundary_values_first_ok (xi1 xi2 eta : ℚ) (rows : List (List ℚ))
    (h : ∀ r ∈ rows, 2 ≤ r.length) :
    ∃ vs, boundary_values_first xi1 xi2 eta rows = .ok vs ∧ vs.length = rows.length := by
  induction rows with
  | nil => exact ⟨[], rfl, rfl⟩
  | cons r rest ih =>
    obtain ⟨vs, hvs, hlen⟩ := ih fun x hx => h x (by simp [hx])
    have hr : 2 ≤ r.length := h r (by simp)
    have hrne : r ≠ [] := by intro hx; simp [hx] at hr
    refine ⟨(xi1 * r.getD 0 0 + xi2 * r.getD 1 0 + eta) :: vs, ?_, by simp [hlen]⟩
    simp only [boundary_values_first, tfIndex_zero r hrne, tfIndex_one r hr, ok_bind,
      hvs, pure_eq_ok]

theorem boundary_values_last_ok (xi1 xi2 eta : ℚ) (rows : List (List ℚ))
    (h : ∀ r ∈ rows, 2 ≤ r.length) :
    ∃ vs, boundary_values_last xi1 xi2 eta rows = .ok vs ∧ vs.length = rows.length := by
  induction rows with
  | nil => exact ⟨[], rfl, rfl⟩
  | cons r rest ih =>
    obtain ⟨vs, hvs, hlen⟩ := ih fun x hx => h x (by simp [hx])
    have hr : 2 ≤ r.length := h r (by simp)
    have hrne : r ≠ [] := by intro hx; simp [hx] at hr
    refine ⟨(xi1 * r.getD (r.length - 1) 0 + xi2 * r.getD (r.length - 2) 0 + eta) :: vs,
      ?_, by simp [hlen]⟩
    simp only [boundary_values_last, tfIndex_neg_one r hrne, tfIndex_neg_two r hr, ok_bind,
      hvs, pure_eq_ok]

theorem append_rows_stats (fs : List ℚ) (rows : List (List ℚ)) (ls : List ℚ)
    (hf : fs.length = rows.length) (hl : ls.length = rows.length) :
    (append_rows fs rows ls).length = rows.length
    ∧ ∀ r2 ∈ append_rows fs rows ls, ∃ r ∈ rows, r2.length = r.length + 2 := by
  induction rows generalizing fs ls with
  | nil =>
    cases fs with
    | nil => cases ls with
      | nil => exact ⟨rfl, by simp [append_rows]⟩
      | cons x xs => simp at hl
    | cons x xs => simp at hf
  | cons r rest ih =>
    cases fs with
    | nil => simp at hf
    | cons f fs2 =>
      cases ls with
      | nil => simp at hl
      | cons l ls2 =>
        obtain ⟨ihlen, ihmem⟩ := ih fs2 ls2 (by simpa using hf) (by simpa using hl)
        constructor
        · simp [append_rows, ihlen]
        · intro r2 hr2
          rcases List.mem_cons.mp hr2 with hx | hx
          · refine ⟨r, by simp, ?_⟩
            rw [hx]
            simp [append_first_and_last]
          · obtain ⟨r3, hr3, hr3len⟩ := ihmem r2 hx
            exact ⟨r3, by simp [hr3], hr3len⟩

theorem after_step_ok (bcL bcU : BoundaryFn) (innerRows : List (List ℚ))
    (grid deltas : List ℚ) (t : ℚ)
    (hg : grid ≠ []) (hd : 2 ≤ deltas.length) (hrow : ∀ r ∈ innerRows, 2 ≤ r.length)
    (hvL : validBoundaryFn bcL) (hvU : validBoundaryFn bcU) :
    ∃ out, apply_boundary_conditions_after_step innerRows bcL bcU grid deltas t = .ok out
      ∧ out.length = innerRows.length
      ∧ ∀ r2 ∈ out, ∃ r ∈ innerRows, r2.length = r.length + 2 := by
  have hdne : deltas ≠ [] := by intro h; simp [h] at hd
  rcases hbl : bcL t (GridArg.scalar (grid.getD 0 0)) with ⟨aL, bL, gL⟩
  rcases hbu : bcU t (GridArg.fullGrid grid) with ⟨aU, bU, gU⟩
  have hvl : bL = none → aL ≠ none := by
    have hx := hvL t (GridArg.scalar (grid.getD 0 0))
    rw [hbl] at hx
    exact hx
  have hvu : bU = none → aU ≠ none := by
    have hx := hvU t (GridArg.fullGrid grid)
    rw [hbu] at hx
    exact hx
  obtain ⟨⟨x1, x2, e1⟩, hpL⟩ :=
    discretize_ok (deltas.getD 0 0) (deltas.getD 1 0) aL bL gL hvl
  obtain ⟨⟨y1, y2, e2⟩, hpU⟩ :=
    discretize_ok (deltas.getD (deltas.length - 1) 0) (deltas.getD (deltas.length - 2) 0)
      aU bU gU hvu
  obtain ⟨fs, hfs, hfslen⟩ := boundary_values_first_ok x1 x2 e1 innerRows hrow
  obtain ⟨ls, hls, hlslen⟩ := boundary_values_last_ok y1 y2 e2 innerRows hrow
  obtain ⟨hlen, hmem⟩ := append_rows_stats fs innerRows ls hfslen hlslen
  refine ⟨append_rows fs innerRows ls, ?_, hlen, hmem⟩
  simp only [apply_boundary_conditions_after_step, tfIndex_zero grid hg,
    tfIndex_zero deltas hdne, tfIndex_one deltas hd, tfIndex_neg_one deltas hdne,
    tfIndex_neg_two deltas hd, ok_bind, hbl, hbu, hpL, hpU, hfs, hls, pure_eq_ok]

theorem isOk_exists {α : Type} (x : Except StepErr α) (h : x.isOk = true) :
    ∃ p, x = .ok p := by
  cases x with
  | ok a => exact ⟨a, rfl⟩
  | error e => simp [Except.isOk, Except.toBool] at h

theorem apply_ok (bcL bcU : BoundaryFn) (grid deltas diag up low : List ℚ) (t : ℚ)
    (hd : 2 ≤ deltas.length) (hdiag : diag ≠ []) (hup : up ≠ []) (hlow : low ≠ [])
    (hvL : validBoundaryFn bcL) (hvU : validBoundaryFn bcU) :
    ∃ p, apply_boundary_conditions_to_discretized_equation bcL bcU grid deltas
      diag up low t = .ok p := by
  have hdne : deltas ≠ [] := by intro h; simp [h] at hd
  rcases hbl : bcL t (GridArg.fullGrid grid) with ⟨aL, bL, gL⟩
  rcases hbu : bcU t (GridArg.fullGrid grid) with ⟨aU, bU, gU⟩
  have hvl : bL = none → aL ≠ none := by
    have hx := hvL t (GridArg.fullGrid grid)
    rw [hbl] at hx
    exact hx
  have hvu : bU = none → aU ≠ none := by
    have hx := hvU t (GridArg.fullGrid grid)
    rw [hbu] at hx
    exact hx
  by_cases hfast : bL = none ∧ bU = none
  · obtain ⟨hbL0, hbU0⟩ := hfast
    subst hbL0
    subst hbU0
    obtain ⟨aLv, haLv⟩ := Option.ne_none_iff_exists'.mp (hvl rfl)
    obtain ⟨aUv, haUv⟩ := Option.ne_none_iff_exists'.mp (hvu rfl)
    subst haLv
    subst haUv
    exact ⟨_, apply_bc_fast_path bcL bcU grid deltas diag up low t aLv aUv gL gU
      hbl hbu hlow hup⟩
  · obtain ⟨⟨x1, x2, e1⟩, hpL⟩ :=
      discretize_ok (deltas.getD 0 0) (deltas.getD 1 0) aL bL gL hvl
    obtain ⟨⟨y1, y2, e2⟩, hpU⟩ :=
      discretize_ok (deltas.getD (deltas.length - 1) 0) (deltas.getD (deltas.length - 2) 0)
        aU bU gU hvu
    refine isOk_exists _ ?_
    simp only [apply_boundary_conditions_to_discretized_equation, hbl, hbu]
    rw [if_neg hfast]
    simp only [tfIndex_zero deltas hdne, tfIndex_one deltas hd, tfIndex_neg_one deltas hdne,
      tfIndex_neg_two deltas hd, tfIndex_zero low hlow, tfIndex_neg_one up hup,
      tfIndex_zero diag hdiag, tfIndex_neg_one diag hdiag, tfIndex_zero up hup,
      tfIndex_neg_one low hlow, hpL, hpU, ok_bind, pure_eq_ok]
    rfl

theorem stencil_diagonals_lengths (deltas second first zeroth : List ℚ) (n : ℕ)
    (hd : deltas.length = n + 1) (hs : second.length = n) (hf : first.length = n)
    (hz : zeroth.length = n) :
    (stencil_diagonals deltas second first zeroth).1.length = n
    ∧ (stencil_diagonals deltas second first zeroth).2.1.length = n
    ∧ (stencil_diagonals deltas second first zeroth).2.2.length = n := by
  simp [stencil_diagonals, eltAdd, eltSub, eltDiv, eltNeg, eltScale, hd, hs, hf, hz]

theorem construct_ok (grid deltas : List ℚ) (bcL bcU : BoundaryFn)
    (f2 fc zc : CoeffFn) (t : ℚ)
    (hg : 4 ≤ grid.length) (hdel : deltas.length = grid.length - 1)
    (h2 : (f2 t grid).length = grid.length) (hc : (fc t grid).length = grid.length)
    (hz : (zc t grid).length = grid.length)
    (hvL : validBoundaryFn bcL) (hvU : validBoundaryFn bcU) :
    ∃ p, construct_space_discretized_eqn_params grid deltas bcL bcU (some f2) fc zc t
      = .ok p := by
  have hp2 : (prepare_pde_coeffs (f2 t grid)).length = grid.length - 2 := by
    rw [prepare_pde_coeffs_length, h2]
  have hpc : (prepare_pde_coeffs (fc t grid)).length = grid.length - 2 := by
    rw [prepare_pde_coeffs_length, hc]
  have hpz : (prepare_pde_coeffs (zc t grid)).length = grid.length - 2 := by
    rw [prepare_pde_coeffs_length, hz]
  obtain ⟨ld, lu, ll⟩ := stencil_diagonals_lengths deltas (prepare_pde_coeffs (f2 t grid))
    (prepare_pde_coeffs (fc t grid)) (prepare_pde_coeffs (zc t grid)) (grid.length - 2)
    (by omega) hp2 hpc hpz
  have hdne : (stencil_diagonals deltas (prepare_pde_coeffs (f2 t grid))
      (prepare_pde_coeffs (fc t grid)) (prepare_pde_coeffs (zc t grid))).1 ≠ [] := by
    intro h
    rw [h] at ld
    simp at ld
    omega
  have hune : (stencil_diagonals deltas (prepare_pde_coeffs (f2 t grid))
      (prepare_pde_coeffs (fc t grid)) (prepare_pde_coeffs (zc t grid))).2.1 ≠ [] := by
    intro h
    rw [h] at lu
    simp at lu
    omega
  have hlne : (stencil_diagonals deltas (prepare_pde_coeffs (f2 t grid))
      (prepare_pde_coeffs (fc t grid)) (prepare_pde_coeffs (zc t grid))).2.2 ≠ [] := by
    intro h
    rw [h] at ll
    simp at ll
    omega
  obtain ⟨p, hp⟩ := apply_ok bcL bcU grid deltas _ _ _ t (by omega) hdne hune hlne hvL hvU
  refine ⟨p, ?_⟩
  simp only [construct_space_discretized_eqn_params, callCoeffFn, ok_bind]
  exact hp

theorem step_ok (t0 t1 : ℚ) (grid : List ℚ) (rows out : List (List ℚ))
    (bcL bcU : BoundaryFn) (sfn ffn zfn : Option CoeffFn) (m : MarchingScheme)
    (hg : 4 ≤ grid.length)
    (hvL : validBoundaryFn bcL) (hvU : validBoundaryFn bcU)
    (hm : m (rows.map innerSlice) t1 t0
        (step_equation_params_fn grid bcL bcU sfn (ffn.getD zero_coeff_fn)
          (zfn.getD zero_coeff_fn)) = .ok out)
    (hout : ∀ r ∈ out, r.length = grid.length - 2) :
    ∃ res, parabolic_equation_step t0 t1 grid rows bcL bcU sfn ffn zfn m = .ok (grid, res)
      ∧ res.length = out.length
      ∧ ∀ r ∈ res, r.length = grid.length := by
  have hgne : grid ≠ [] := by intro h; simp [h] at hg
  have hd : 2 ≤ (grid_deltas grid).length := by rw [grid_deltas_length]; omega
  have hrow : ∀ r ∈ out, 2 ≤ r.length := by
    intro r hr
    rw [hout r hr]
    omega
  obtain ⟨o2, ho2, hlen, hstats⟩ :=
    after_step_ok bcL bcU out grid (grid_deltas grid) t1 hgne hd hrow hvL hvU
  refine ⟨o2, ?_, hlen, ?_⟩
  · simp only [parabolic_equation_step, hm, ok_bind, ho2, pure_eq_ok]
  · intro r2 hr2
    obtain ⟨r, hr, hr2len⟩ := hstats r2 hr2
    rw [hr2len, hout r hr]
    omega

/- The claims. -/

/-- C1: for every interior grid point with backward spacing h0 = deltas[i],
forward spacing h1 = deltas[i+1], s = h0+h1, and coefficient values a, b, c at
that point (entry i+1 of the full-grid coefficient fields, which are trimmed to
interior points by prepare_pde_coeffs), the stencil builder returns
upper = -(b/s + (2a/s)/h1), lower = b/s - (2a/s)/h0 and
diagonal = -c - upper - lower. -/
theorem stencil_builder_interior_formulas (deltas a b c : List ℚ) (i : ℕ)
    (hdel : i + 1 < deltas.length) (ha : i + 2 < a.length) (hb : i + 2 < b.length)
    (hc : i + 2 < c.length) :
    ((stencil_diagonals deltas (prepare_pde_coeffs a) (prepare_pde_coeffs b)
        (prepare_pde_coeffs c)).2.1.getD i 0
      = -(b.getD (i + 1) 0 / (deltas.getD i 0 + deltas.getD (i + 1) 0)
          + 2 * a.getD (i + 1) 0 / (deltas.getD i 0 + deltas.getD (i + 1) 0)
            / deltas.getD (i + 1) 0))
    ∧ ((stencil_diagonals deltas (prepare_pde_coeffs a) (prepare_pde_coeffs b)
        (prepare_pde_coeffs c)).2.2.getD i 0
      = b.getD (i + 1) 0 / (deltas.getD i 0 + deltas.getD (i + 1) 0)
        - 2 * a.getD (i + 1) 0 / (deltas.getD i 0 + deltas.getD (i + 1) 0)
          / deltas.getD i 0)
    ∧ ((stencil_diagonals deltas (prepare_pde_coeffs a) (prepare_pde_coeffs b)
        (prepare_pde_coeffs c)).1.getD i 0
      = -c.getD (i + 1) 0
        - (stencil_diagonals deltas (prepare_pde_coeffs a) (prepare_pde_coeffs b)
            (prepare_pde_coeffs c)).2.1.getD i 0
        - (stencil_diagonals deltas (prepare_pde_coeffs a) (prepare_pde_coeffs b)
            (prepare_pde_coeffs c)).2.2.getD i 0) := by
  have la : i < (prepare_pde_coeffs a).length := by rw [prepare_pde_coeffs_length]; omega
  have lb : i < (prepare_pde_coeffs b).length := by rw [prepare_pde_coeffs_length]; omega
  have lc : i < (prepare_pde_coeffs c).length := by rw [prepare_pde_coeffs_length]; omega
  refine ⟨?_, ?_, ?_⟩
  · rw [stencil_upper_getD _ _ _ _ i hdel la lb, prepare_pde_coeffs_getD a i ha,
      prepare_pde_coeffs_getD b i hb]
  · rw [stencil_lower_getD _ _ _ _ i hdel la lb, prepare_pde_coeffs_getD a i ha,
      prepare_pde_coeffs_getD b i hb]
  · rw [stencil_diag_getD _ _ _ _ i hdel la lb lc, prepare_pde_coeffs_getD c i hc]

/-- Witness for C1, on the grid spacings [1, 2, 3] with coefficient fields
[1, 2, 3] at interior point 0. -/
theorem stencil_builder_interior_formulas_witness :
    (0 + 1 < ([1, 2, 3] : List ℚ).length)
    ∧ (((stencil_diagonals [1, 2, 3] (prepare_pde_coeffs [1, 2, 3])
          (prepare_pde_coeffs [1, 2, 3]) (prepare_pde_coeffs [1, 2, 3])).2.1.getD 0 0
        = -(([1, 2, 3] : List ℚ).getD (0 + 1) 0
            / (([1, 2, 3] : List ℚ).getD 0 0 + ([1, 2, 3] : List ℚ).getD (0 + 1) 0)
            + 2 * ([1, 2, 3] : List ℚ).getD (0 + 1) 0
              / (([1, 2, 3] : List ℚ).getD 0 0 + ([1, 2, 3] : List ℚ).getD (0 + 1) 0)
              / ([1, 2, 3] : List ℚ).getD (0 + 1) 0))
      ∧ (((stencil_diagonals [1, 2, 3] (prepare_pde_coeffs [1, 2, 3])
          (prepare_pde_coeffs [1, 2, 3]) (prepare_pde_coeffs [1, 2, 3])).2.2.getD 0 0
        = ([1, 2, 3] : List ℚ).getD (0 + 1) 0
            / (([1, 2, 3] : List ℚ).getD 0 0 + ([1, 2, 3] : List ℚ).getD (0 + 1) 0)
          - 2 * ([1, 2, 3] : List ℚ).getD (0 + 1) 0
            / (([1, 2, 3] : List ℚ).getD 0 0 + ([1, 2, 3] : List ℚ).getD (0 + 1) 0)
            / ([1, 2, 3] : List ℚ).getD 0 0)
      ∧ ((stencil_diagonals [1, 2, 3] (prepare_pde_coeffs [1, 2, 3])
          (prepare_pde_coeffs [1, 2, 3]) (prepare_pde_coeffs [1, 2, 3])).1.getD 0 0
        = -([1, 2, 3] : List ℚ).getD (0 + 1) 0
          - (stencil_diagonals [1, 2, 3] (prepare_pde_coeffs [1, 2, 3])
              (prepare_pde_coeffs [1, 2, 3]) (prepare_pde_coeffs [1, 2, 3])).2.1.getD 0 0
          - (stencil_diagonals [1, 2, 3] (prepare_pde_coeffs [1, 2, 3])
              (prepare_pde_coeffs [1, 2, 3]) (prepare_pde_coeffs [1, 2, 3])).2.2.getD 0 0))) :=
  ⟨by decide,
   stencil_builder_interior_formulas [1, 2, 3] [1, 2, 3] [1, 2, 3] [1, 2, 3] 0
     (by decide) (by decide) (by decide) (by decide)⟩

/-- C2: for a Robin boundary condition (beta present, alpha optional) the
boundary discretizer returns xi1 = beta(dx0+dx1)^2/denom, xi2 = -beta dx0^2/denom,
eta = gamma dx0 dx1 (dx0+dx1)/denom, where denom = beta dx1 (2 dx0+dx1) plus
alpha dx0 dx1 (dx0+dx1) exactly when alpha is present; and the boundary
injector applies it with dx0 = deltas[0], dx1 = deltas[1] at the lower edge and
dx0 = deltas[-1], dx1 = deltas[-2] at the upper edge. -/
theorem robin_discretizer_formulas_and_spacings :
    (∀ dx0 dx1 b gamma : ℚ,
      discretize_boundary_conditions dx0 dx1 none (some b) gamma
        = .ok (b * (dx0 + dx1) ^ 2 / (b * dx1 * (2 * dx0 + dx1)),
               -(b * dx0 ^ 2) / (b * dx1 * (2 * dx0 + dx1)),
               gamma * dx0 * dx1 * (dx0 + dx1) / (b * dx1 * (2 * dx0 + dx1))))
    ∧ (∀ dx0 dx1 a b gamma : ℚ,
      discretize_boundary_conditions dx0 dx1 (some a) (some b) gamma
        = .ok (b * (dx0 + dx1) ^ 2
                 / (b * dx1 * (2 * dx0 + dx1) + a * dx0 * dx1 * (dx0 + dx1)),
               -(b * dx0 ^ 2) / (b * dx1 * (2 * dx0 + dx1) + a * dx0 * dx1 * (dx0 + dx1)),
               gamma * dx0 * dx1 * (dx0 + dx1)
                 / (b * dx1 * (2 * dx0 + dx1) + a * dx0 * dx1 * (dx0 + dx1))))
    ∧ (∀ (bcL bcU : BoundaryFn) (grid deltas diag up low : List ℚ) (t : ℚ)
         (aL aU : Option ℚ) (bL bU gL gU : ℚ),
      bcL t (GridArg.fullGrid grid) = (aL, some bL, gL) →
      bcU t (GridArg.fullGrid grid) = (aU, some bU, gU) →
      2 ≤ deltas.length → diag ≠ [] → up ≠ [] → low ≠ [] →
      ∃ xi1 xi2 eta xi1u xi2u etau : ℚ,
        discretize_boundary_conditions (deltas.getD 0 0) (deltas.getD 1 0) aL (some bL) gL
          = .ok (xi1, xi2, eta)
        ∧ discretize_boundary_conditions (deltas.getD (deltas.length - 1) 0)
            (deltas.getD (deltas.length - 2) 0) aU (some bU) gU = .ok (xi1u, xi2u, etau)
        ∧ apply_boundary_conditions_to_discretized_equation bcL bcU grid deltas diag up low t
          = .ok ((append_first_and_last (diag.getD 0 0 + low.getD 0 0 * xi1)
                    (innerSlice diag)
                    (diag.getD (diag.length - 1) 0 + up.getD (up.length - 1) 0 * xi1u),
                  append_first (up.getD 0 0 + low.getD 0 0 * xi2) (up.drop 1),
                  append_last low.dropLast
                    (low.getD (low.length - 1) 0 + up.getD (up.length - 1) 0 * xi2u)),
                 append_first_and_last (low.getD 0 0 * eta)
                   (List.replicate (diag.length - 2) 0)
                   (up.getD (up.length - 1) 0 * etau))) :=
  ⟨discretize_robin_without_alpha, discretize_robin_with_alpha,
   fun bcL bcU grid deltas diag up low t aL aU bL bU gL gU hbl hbu hd hdiag hup hlow =>
     apply_robin_edges bcL bcU grid deltas diag up low t aL aU bL bU gL gU
       hbl hbu hd hdiag hup hlow⟩

/-- Witness for C2, exercising the Robin path of the boundary injector with
deltas [1, 2], diagonals [1, 2], [3, 4], [5, 6] and Robin data at both edges. -/
theorem robin_discretizer_formulas_and_spacings_witness :
    (2 ≤ ([1, 2] : List ℚ).length)
    ∧ (∃ xi1 xi2 eta xi1u xi2u etau : ℚ,
        discretize_boundary_conditions (([1, 2] : List ℚ).getD 0 0)
            (([1, 2] : List ℚ).getD 1 0) (some 1) (some 2) 3 = .ok (xi1, xi2, eta)
        ∧ discretize_boundary_conditions
            (([1, 2] : List ℚ).getD (([1, 2] : List ℚ).length - 1) 0)
            (([1, 2] : List ℚ).getD (([1, 2] : List ℚ).length - 2) 0) none (some 4) 5
            = .ok (xi1u, xi2u, etau)
        ∧ apply_boundary_conditions_to_discretized_equation
            (fun _ _ => (some 1, some 2, 3)) (fun _ _ => (none, some 4, 5))
            [0, 1] [1, 2] [1, 2] [3, 4] [5, 6] 0
          = .ok ((append_first_and_last
                    (([1, 2] : List ℚ).getD 0 0 + ([5, 6] : List ℚ).getD 0 0 * xi1)
                    (innerSlice [1, 2])
                    (([1, 2] : List ℚ).getD (([1, 2] : List ℚ).length - 1) 0
                      + ([3, 4] : List ℚ).getD (([3, 4] : List ℚ).length - 1) 0 * xi1u),
                  append_first
                    (([3, 4] : List ℚ).getD 0 0 + ([5, 6] : List ℚ).getD 0 0 * xi2)
                    (([3, 4] : List ℚ).drop 1),
                  append_last ([5, 6] : List ℚ).dropLast
                    (([5, 6] : List ℚ).getD (([5, 6] : List ℚ).length - 1) 0
                      + ([3, 4] : List ℚ).getD (([3, 4] : List ℚ).length - 1) 0 * xi2u)),
                 append_first_and_last (([5, 6] : List ℚ).getD 0 0 * eta)
                   (List.replicate (([1, 2] : List ℚ).length - 2) 0)
                   (([3, 4] : List ℚ).getD (([3, 4] : List ℚ).length - 1) 0 * etau))) :=
  ⟨by decide,
   robin_discretizer_formulas_and_spacings.2.2
     (fun _ _ => (some 1, some 2, 3)) (fun _ _ => (none, some 4, 5))
     [0, 1] [1, 2] [1, 2] [3, 4] [5, 6] 0 (some 1) none 2 4 3 5
     rfl rfl (by decide) (by decide) (by decide) (by decide)⟩

/-- C3: when beta is None at both edges (pure Dirichlet with alpha present),
the boundary injector returns the stencil triple (diagonal, upper, lower)
unchanged, and an inhomogeneous term whose first entry is
lower[0]*gamma_lower/alpha_lower, whose last entry is
upper[-1]*gamma_upper/alpha_upper, and whose interior entries are all zero. -/
theorem dirichlet_fast_path_shortcut (bcL bcU : BoundaryFn)
    (grid deltas diag up low : List ℚ) (t aL aU gL gU : ℚ)
    (hbl : bcL t (GridArg.fullGrid grid) = (some aL, none, gL))
    (hbu : bcU t (GridArg.fullGrid grid) = (some aU, none, gU))
    (hlow : low ≠ []) (hup : up ≠ []) :
    apply_boundary_conditions_to_discretized_equation bcL bcU grid deltas diag up low t
      = .ok ((diag, up, low),
          append_first_and_last (low.getD 0 0 * gL / aL)
            (List.replicate (diag.length - 2) 0)
            (up.getD (up.length - 1) 0 * gU / aU)) :=
  apply_bc_fast_path bcL bcU grid deltas diag up low t aL aU gL gU hbl hbu hlow hup

/-- Witness for C3, with Dirichlet data 6/2 and 8/4 and diagonals [1, 2, 3],
[4, 5], [6, 7]; the deltas list is irrelevant on this path. -/
theorem dirichlet_fast_path_shortcut_witness :
    (([6, 7] : List ℚ) ≠ [])
    ∧ apply_boundary_conditions_to_discretized_equation
        (fun _ _ => (some 2, none, 6)) (fun _ _ => (some 4, none, 8))
        [0, 1, 2, 3] [1, 1, 1] [1, 2, 3] [4, 5] [6, 7] 0
      = .ok (([1, 2, 3], [4, 5], [6, 7]),
          append_first_and_last (([6, 7] : List ℚ).getD 0 0 * 6 / 2)
            (List.replicate (([1, 2, 3] : List ℚ).length - 2) 0)
            (([4, 5] : List ℚ).getD (([4, 5] : List ℚ).length - 1) 0 * 8 / 4)) :=
  ⟨by decide,
   dirichlet_fast_path_shortcut (fun _ _ => (some 2, none, 6)) (fun _ _ => (some 4, none, 8))
     [0, 1, 2, 3] [1, 1, 1] [1, 2, 3] [4, 5] [6, 7] 0 2 4 6 8
     rfl rfl (by decide) (by decide)⟩

/-- C4 counterexample: with both edges supplying beta = None and the lower edge
also supplying alpha = None, the boundary application takes the Dirichlet fast
path, never reaches the explicit check in the boundary discretizer, and fails
with a TypeError from dividing by None instead of the explicit
invalid-boundary-conditions configuration error the claim requires. -/
theorem both_none_fast_path_counterexample :
    apply_boundary_conditions_to_discretized_equation
      (fun _ _ => (none, none, 1)) (fun _ _ => (some 1, none, 1))
      [0, 1, 2, 3] [1, 1, 1] [1, 1] [1, 1] [1, 1] 0 = .error .noneTypeError
    ∧ StepErr.noneTypeError ≠ StepErr.invalidBoundaryError :=
  ⟨by with_unfolding_all rfl, by decide⟩

/-- C4 amended: the boundary discretizer itself always detects alpha = beta =
None and raises the explicit configuration error, and the boundary injector
surfaces that error for the lower and the upper edge independently whenever the
other edge has beta present (so that the Dirichlet fast path is not taken);
when both edges have beta = None the invalid edge instead fails with a
TypeError from dividing by None. -/
theorem both_none_configuration_error_amended :
    (∀ dx0 dx1 gamma : ℚ,
      discretize_boundary_conditions dx0 dx1 none none gamma
        = .error .invalidBoundaryError)
    ∧ (∀ (bcL bcU : BoundaryFn) (grid deltas diag up low : List ℚ) (t : ℚ)
         (gL gU : ℚ) (aU : Option ℚ) (bU : ℚ),
      bcL t (GridArg.fullGrid grid) = (none, none, gL) →
      bcU t (GridArg.fullGrid grid) = (aU, some bU, gU) →
      2 ≤ deltas.length →
      apply_boundary_conditions_to_discretized_equation bcL bcU grid deltas diag up low t
        = .error .invalidBoundaryError)
    ∧ (∀ (bcL bcU : BoundaryFn) (grid deltas diag up low : List ℚ) (t : ℚ)
         (gL gU : ℚ) (aL : Option ℚ) (bL : ℚ),
      bcL t (GridArg.fullGrid grid) = (aL, some bL, gL) →
      bcU t (GridArg.fullGrid grid) = (none, none, gU) →
      2 ≤ deltas.length → low ≠ [] →
      apply_boundary_conditions_to_discretized_equation bcL bcU grid deltas diag up low t
        = .error .invalidBoundaryError) :=
  ⟨discretize_both_none_raises,
   fun bcL bcU grid deltas diag up low t gL gU aU bU hbl hbu hd =>
     apply_lower_both_none bcL bcU grid deltas diag up low t gL gU aU bU hbl hbu hd,
   fun bcL bcU grid deltas diag up low t gL gU aL bL hbl hbu hd hlow =>
     apply_upper_both_none bcL bcU grid deltas diag up low t gL gU aL bL hbl hbu hd hlow⟩

/-- Witness for C4 as amended: the configuration error surfaces for an invalid
lower edge (with Robin upper edge) and for an invalid upper edge (with Robin
lower edge). -/
theorem both_none_configuration_error_amended_witness :
    apply_boundary_conditions_to_discretized_equation
      (fun _ _ => (none, none, 5)) (fun _ _ => (some 2, some 3, 7))
      [0, 1, 2] [1, 1] [9] [8] [7] 0 = .error .invalidBoundaryError
    ∧ apply_boundary_conditions_to_discretized_equation
        (fun _ _ => (some 2, some 3, 7)) (fun _ _ => (none, none, 5))
        [0, 1, 2] [1, 1] [9] [8] [7] 0 = .error .invalidBoundaryError :=
  ⟨both_none_configuration_error_amended.2.1 (fun _ _ => (none, none, 5))
     (fun _ _ => (some 2, some 3, 7)) [0, 1, 2] [1, 1] [9] [8] [7] 0 5 7 (some 2) 3
     rfl rfl (by decide),
   both_none_configuration_error_amended.2.2 (fun _ _ => (some 2, some 3, 7))
     (fun _ _ => (none, none, 5)) [0, 1, 2] [1, 1] [9] [8] [7] 0 7 5 (some 2) 3
     rfl rfl (by decide) (by decide)⟩

/-- C5: omitting the first- or zeroth-order coefficient callable is exactly
equivalent to supplying the zero coefficient function; but omitting the
second-order coefficient callable is not handled (only the other two are
defaulted), so constructing the space-discretized equation calls None and
raises a TypeError instead of dropping the diffusion term. -/
theorem absent_coefficient_fn_behavior :
    (∀ (t0 t1 : ℚ) (grid : List ℚ) (vg : List (List ℚ)) (bcL bcU : BoundaryFn)
        (sfn zfn : Option CoeffFn) (m : MarchingScheme),
      parabolic_equation_step t0 t1 grid vg bcL bcU sfn none zfn m
        = parabolic_equation_step t0 t1 grid vg bcL bcU sfn (some zero_coeff_fn) zfn m)
    ∧ (∀ (t0 t1 : ℚ) (grid : List ℚ) (vg : List (List ℚ)) (bcL bcU : BoundaryFn)
        (sfn ffn : Option CoeffFn) (m : MarchingScheme),
      parabolic_equation_step t0 t1 grid vg bcL bcU sfn ffn none m
        = parabolic_equation_step t0 t1 grid vg bcL bcU sfn ffn (some zero_coeff_fn) m)
    ∧ (∀ (grid deltas : List ℚ) (bcL bcU : BoundaryFn) (ffn zfn : CoeffFn) (t : ℚ),
      construct_space_discretized_eqn_params grid deltas bcL bcU none ffn zfn t
        = .error .noneTypeError) :=
  ⟨fun _ _ _ _ _ _ _ _ _ => rfl, fun _ _ _ _ _ _ _ _ _ => rfl, fun _ _ _ _ _ _ _ => rfl⟩

/-- C6: at the post-step boundary reconstruction the lower-edge callable
receives the scalar coord_grid[0][0] while the upper-edge callable receives the
coordinate grid; a probe returning 20 on a scalar argument and 10 on a grid
argument yields first entry 20 and last entry 10, so the two callables do not
receive the same second argument, contradicting the documented (time, grid)
interface. -/
theorem after_step_boundary_arg_mismatch :
    apply_boundary_conditions_after_step [[5, 6]]
      (fun _ arg => (some 1, none,
        match arg with | GridArg.fullGrid _ => 10 | GridArg.scalar _ => 20))
      (fun _ arg => (some 1, none,
        match arg with | GridArg.fullGrid _ => 10 | GridArg.scalar _ => 20))
      [0, 1, 2, 3] [1, 1, 1] 0 = .ok [[20, 5, 6, 10]]
    ∧ GridArg.scalar 0 ≠ GridArg.fullGrid [0, 1, 2, 3] :=
  ⟨by with_unfolding_all rfl, by simp⟩

/-- C7: on a uniform grid of spacing h, with constant coefficient fields a, b,
c over the interior points, the stencil builder reduces exactly to the standard
central-difference stencil diag = -c + 2a/h^2, upper = -(b/(2h) + a/h^2),
lower = b/(2h) - a/h^2. -/
theorem uniform_grid_reduction (n : ℕ) (h a b c : ℚ) (i : ℕ) (hh : 0 < h) (hi : i < n) :
    ((stencil_diagonals (List.replicate (n + 1) h) (List.replicate n a)
        (List.replicate n b) (List.replicate n c)).1.getD i 0 = -c + 2 * a / h ^ 2)
    ∧ ((stencil_diagonals (List.replicate (n + 1) h) (List.replicate n a)
        (List.replicate n b) (List.replicate n c)).2.1.getD i 0
        = -(b / (2 * h) + a / h ^ 2))
    ∧ ((stencil_diagonals (List.replicate (n + 1) h) (List.replicate n a)
        (List.replicate n b) (List.replicate n c)).2.2.getD i 0
        = b / (2 * h) - a / h ^ 2) := by
  have hdel : i + 1 < (List.replicate (n + 1) h).length := by simp; omega
  have la : i < (List.replicate n a).length := by simp; omega
  have lb : i < (List.replicate n b).length := by simp; omega
  have lc : i < (List.replicate n c).length := by simp; omega
  have hu : (stencil_diagonals (List.replicate (n + 1) h) (List.replicate n a)
      (List.replicate n b) (List.replicate n c)).2.1.getD i 0
      = -(b / (2 * h) + a / h ^ 2) := by
    rw [stencil_upper_getD _ _ _ _ i hdel la lb, getD_replicate h (n + 1) i (by omega),
      getD_replicate h (n + 1) (i + 1) (by omega), getD_replicate a n i hi,
      getD_replicate b n i hi]
    rw [show h + h = 2 * h from by ring]
    field_simp
    ring
  have hl : (stencil_diagonals (List.replicate (n + 1) h) (List.replicate n a)
      (List.replicate n b) (List.replicate n c)).2.2.getD i 0
      = b / (2 * h) - a / h ^ 2 := by
    rw [stencil_lower_getD _ _ _ _ i hdel la lb, getD_replicate h (n + 1) i (by omega),
      getD_replicate h (n + 1) (i + 1) (by omega), getD_replicate a n i hi,
      getD_replicate b n i hi]
    rw [show h + h = 2 * h from by ring]
    field_simp
    ring
  refine ⟨?_, hu, hl⟩
  rw [stencil_diag_getD _ _ _ _ i hdel la lb lc, hu, hl, getD_replicate c n i hi]
  ring

/-- Witness for C7 at n = 1, h = 1, a = b = c = 1, i = 0. -/
theorem uniform_grid_reduction_witness :
    (0 < (1 : ℚ))
    ∧ (((stencil_diagonals (List.replicate (1 + 1) 1) (List.replicate 1 1)
          (List.replicate 1 1) (List.replicate 1 1)).1.getD 0 0
          = -1 + 2 * 1 / (1 : ℚ) ^ 2)
      ∧ ((stencil_diagonals (List.replicate (1 + 1) 1) (List.replicate 1 1)
          (List.replicate 1 1) (List.replicate 1 1)).2.1.getD 0 0
          = -(1 / (2 * 1) + 1 / (1 : ℚ) ^ 2))
      ∧ ((stencil_diagonals (List.replicate (1 + 1) 1) (List.replicate 1 1)
          (List.replicate 1 1) (List.replicate 1 1)).2.2.getD 0 0
          = 1 / (2 * 1) - 1 / (1 : ℚ) ^ 2)) :=
  ⟨by norm_num, uniform_grid_reduction 1 1 1 1 1 0 (by norm_num) (by decide)⟩

/-- C8: with all three PDE coefficients the zero function, Dirichlet boundary
conditions alpha = 1, beta = None with right-hand sides gL and gU, and an
identity time-marching routine, one step returns a field whose first entry is
gL evaluated at t1, whose last entry is gU evaluated at t1, and whose interior
entries are the input interior entries unchanged. -/
theorem dirichlet_identity_step (t0 t1 : ℚ) (gL gU : ℚ → ℚ) (grid : List ℚ)
    (rows : List (List ℚ)) (hg : 4 ≤ grid.length)
    (hrows : ∀ r ∈ rows, r.length = grid.length) :
    parabolic_equation_step t0 t1 grid rows
      (fun s _ => (some 1, none, gL s)) (fun s _ => (some 1, none, gU s))
      (some zero_coeff_fn) (some zero_coeff_fn) (some zero_coeff_fn)
      (fun v _ _ _ => .ok v)
      = .ok (grid, rows.map fun r =>
          append_first_and_last (gL t1) (innerSlice r) (gU t1)) := by
  have hgne : grid ≠ [] := by intro h; simp [h] at hg
  have hd : 2 ≤ (grid_deltas grid).length := by rw [grid_deltas_length]; omega
  have hrow2 : ∀ r ∈ rows.map innerSlice, 2 ≤ r.length := by
    intro r hr
    obtain ⟨s, hs, rfl⟩ := List.mem_map.mp hr
    rw [innerSlice_length, hrows s hs]
    omega
  simp only [parabolic_equation_step, Option.getD_some, ok_bind]
  rw [after_step_dirichlet (fun s _ => (some 1, none, gL s))
    (fun s _ => (some 1, none, gU s)) (rows.map innerSlice) grid (grid_deltas grid)
    t1 1 1 (gL t1) (gU t1) (fun arg => rfl) (fun arg => rfl) hgne hd hrow2]
  simp [List.map_map, Function.comp, div_one]

/-- Witness for C8 on the grid [0, 1, 2, 3] with one batch row [5, 6, 7, 8]
and boundary values 10 and 20. -/
theorem dirichlet_identity_step_witness :
    (4 ≤ ([0, 1, 2, 3] : List ℚ).length)
    ∧ parabolic_equation_step 1 0 [0, 1, 2, 3] [[5, 6, 7, 8]]
        (fun s _ => (some 1, none, (fun _ => (10 : ℚ)) s))
        (fun s _ => (some 1, none, (fun _ => (20 : ℚ)) s))
        (some zero_coeff_fn) (some zero_coeff_fn) (some zero_coeff_fn)
        (fun v _ _ _ => .ok v)
      = .ok ([0, 1, 2, 3], [[5, 6, 7, 8]].map fun r =>
          append_first_and_last ((fun _ => (10 : ℚ)) 0) (innerSlice r)
            ((fun _ => (20 : ℚ)) 0)) :=
  ⟨by decide,
   dirichlet_identity_step 1 0 (fun _ => 10) (fun _ => 20) [0, 1, 2, 3] [[5, 6, 7, 8]]
     (by decide) (by decide)⟩

/-- C9: for a grid of size N at least 4, a batch of K rows of length N, valid
boundary conditions, every combination of present/absent coefficient callables,
and a time-marching routine returning an interior field of the shape it
receives (K rows of length N-2), the step returns a value field of K rows of
length N, the shape of the input field. -/
theorem step_shape_preservation (t0 t1 : ℚ) (grid : List ℚ)
    (rows out : List (List ℚ)) (bcL bcU : BoundaryFn)
    (sfn ffn zfn : Option CoeffFn) (m : MarchingScheme)
    (hg : 4 ≤ grid.length) (_hrows : ∀ r ∈ rows, r.length = grid.length)
    (hvL : validBoundaryFn bcL) (hvU : validBoundaryFn bcU)
    (hm : m (rows.map innerSlice) t1 t0
        (step_equation_params_fn grid bcL bcU sfn (ffn.getD zero_coeff_fn)
          (zfn.getD zero_coeff_fn)) = .ok out)
    (hlen : out.length = rows.length)
    (hout : ∀ r ∈ out, r.length = grid.length - 2) :
    ∃ res, parabolic_equation_step t0 t1 grid rows bcL bcU sfn ffn zfn m
        = .ok (grid, res)
      ∧ res.length = rows.length ∧ ∀ r ∈ res, r.length = grid.length := by
  obtain ⟨res, hres, hreslen, hresmem⟩ :=
    step_ok t0 t1 grid rows out bcL bcU sfn ffn zfn m hg hvL hvU hm hout
  exact ⟨res, hres, by rw [hreslen, hlen], hresmem⟩

/-- Witness for C9 on the grid [0, 1, 2, 3], one batch row [1, 2, 3, 4], all
coefficient callables absent, and the identity marching routine. -/
theorem step_shape_preservation_witness :
    (4 ≤ ([0, 1, 2, 3] : List ℚ).length)
    ∧ (∃ res, parabolic_equation_step 1 0 [0, 1, 2, 3] [[1, 2, 3, 4]]
          (fun _ _ => (some 1, none, 0)) (fun _ _ => (some 1, none, 0))
          none none none (fun v _ _ _ => .ok v)
        = .ok ([0, 1, 2, 3], res)
      ∧ res.length = ([[1, 2, 3, 4]] : List (List ℚ)).length
      ∧ ∀ r ∈ res, r.length = ([0, 1, 2, 3] : List ℚ).length) :=
  ⟨by decide,
   step_shape_preservation 1 0 [0, 1, 2, 3] [[1, 2, 3, 4]] [[2, 3]]
     (fun _ _ => (some 1, none, 0)) (fun _ _ => (some 1, none, 0))
     none none none (fun v _ _ _ => .ok v)
     (by decide) (by decide)
     (fun _ _ _ => Option.some_ne_none 1) (fun _ _ _ => Option.some_ne_none 1)
     rfl (by decide) (by decide)⟩

/-- C10: with at least 4 grid points every index taken by the step is in
bounds: both the discretized-equation construction (deltas[0], deltas[1],
deltas[-1], deltas[-2], and the first/last diagonal entries) and the full step
including the post-step reconstruction (inner[...,0], inner[...,1],
inner[...,-1], inner[...,-2]) succeed; and on a 3-point grid the step fails
with an out-of-range index, so the step requires N at least 4. -/
theorem step_grid_size_requirement :
    (∀ (t0 t1 : ℚ) (grid : List ℚ) (rows out : List (List ℚ)) (bcL bcU : BoundaryFn)
        (sfn ffn zfn : Option CoeffFn) (m : MarchingScheme),
      4 ≤ grid.length → validBoundaryFn bcL → validBoundaryFn bcU →
      m (rows.map innerSlice) t1 t0
        (step_equation_params_fn grid bcL bcU sfn (ffn.getD zero_coeff_fn)
          (zfn.getD zero_coeff_fn)) = .ok out →
      (∀ r ∈ out, r.length = grid.length - 2) →
      ∃ res, parabolic_equation_step t0 t1 grid rows bcL bcU sfn ffn zfn m
        = .ok (grid, res))
    ∧ (∀ (grid : List ℚ) (bcL bcU : BoundaryFn) (f2 fc zc : CoeffFn) (t : ℚ),
      4 ≤ grid.length → validBoundaryFn bcL → validBoundaryFn bcU →
      (∀ s : ℚ, (f2 s grid).length = grid.length) →
      (∀ s : ℚ, (fc s grid).length = grid.length) →
      (∀ s : ℚ, (zc s grid).length = grid.length) →
      ∃ p, step_equation_params_fn grid bcL bcU (some f2) fc zc t = .ok p)
    ∧ parabolic_equation_step 1 0 [0, 1, 2] [[7, 8, 9]]
        (fun _ _ => (some 1, none, 10)) (fun _ _ => (some 1, none, 20))
        (some zero_coeff_fn) (some zero_coeff_fn) (some zero_coeff_fn)
        (fun v _ _ _ => .ok v) = .error .outOfRangeError := by
  refine ⟨?_, ?_, by with_unfolding_all rfl⟩
  · intro t0 t1 grid rows out bcL bcU sfn ffn zfn m hg hvL hvU hm hout
    obtain ⟨res, hres, _, _⟩ :=
      step_ok t0 t1 grid rows out bcL bcU sfn ffn zfn m hg hvL hvU hm hout
    exact ⟨res, hres⟩
  · intro grid bcL bcU f2 fc zc t hg hvL hvU h2 hc hz
    exact construct_ok grid (grid_deltas grid) bcL bcU f2 fc zc t hg
      (grid_deltas_length grid) (h2 t) (hc t) (hz t) hvL hvU

/-- Witness for C10, exercising the successful 4-point case for the step and
the equation-params generator. -/
theorem step_grid_size_requirement_witness :
    (∃ res, parabolic_equation_step 1 0 [0, 1, 2, 3] [[1, 2, 3, 4]]
        (fun _ _ => (some 1, none, 0)) (fun _ _ => (some 1, none, 0))
        (some zero_coeff_fn) (some zero_coeff_fn) (some zero_coeff_fn)
        (fun v _ _ _ => .ok v)
      = .ok ([0, 1, 2, 3], res))
    ∧ (∃ p, step_equation_params_fn [0, 1, 2, 3]
        (fun _ _ => (some 1, none, 0)) (fun _ _ => (some 1, none, 0))
        (some zero_coeff_fn) zero_coeff_fn zero_coeff_fn 0 = .ok p) :=
  ⟨step_grid_size_requirement.1 1 0 [0, 1, 2, 3] [[1, 2, 3, 4]] [[2, 3]]
     (fun _ _ => (some 1, none, 0)) (fun _ _ => (some 1, none, 0))
     (some zero_coeff_fn) (some zero_coeff_fn) (some zero_coeff_fn)
     (fun v _ _ _ => .ok v) (by decide)
     (fun _ _ _ => Option.some_ne_none 1) (fun _ _ _ => Option.some_ne_none 1)
     rfl (by decide),
   step_grid_size_requirement.2.1 [0, 1, 2, 3]
     (fun _ _ => (some 1, none, 0)) (fun _ _ => (some 1, none, 0))
     zero_coeff_fn zero_coeff_fn zero_coeff_fn 0 (by decide)
     (fun _ _ _ => Option.some_ne_none 1) (fun _ _ _ => Option.some_ne_none 1)
     (fun _ => by simp [zero_coeff_fn]) (fun _ => by simp [zero_coeff_fn])
     (fun _ => by simp [zero_coeff_fn])⟩
